import Mathlib

/-!
# Verification of the link-generator route library

A shallow embedding of the route-flattening and link-rendering core of the
`link-generator` library.  Strings are modelled as `List Char` (`Str`), JS
objects as ordered association lists, and the JS value domain relevant to
parameter and query values (`string | number | boolean | null | undefined`)
as the inductive `ParamValue`.  Each embedded function mirrors one function
of the source:

* `remove_query_area`, `flatten_route_config` — `flatten_route_config.ts`
  and the flattener inside `link_generator.ts`;
* `LGen.link` and its helpers (`create_routes_map`, `remove_constraint_area`,
  `replace_params_area`, `create_query_string_from_object`,
  `generate_query_string`, `create_query_context`) — `link_generator.ts`;
* `Gen.createLinkGenerator` and its helpers — `generator.ts`;
* `FCfg.flattenRouteConfig` and its helpers — `flattenConfig.ts`.
-/

/-- Strings, modelled as lists of characters. -/
abbrev Str := List Char

/-- The JS values that can appear as path-parameter or query values:
`string | number | boolean`, plus `null` and `undefined` which arrive through
absent object keys or explicit members. -/
inductive ParamValue where
  | str (s : Str)
  | num (n : Int)
  | bool (b : Bool)
  | null
  | undef
deriving DecidableEq

/-- A JS object of parameter or query values, as an ordered association list
(`Object.entries` order). -/
abbrev ParamObj := List (Str × ParamValue)

/-- JS truthiness of a `ParamValue` (`""`, `0`, `false`, `null`, `undefined`
are falsy). -/
def jsTruthy : ParamValue → Bool
  | .str s => s ≠ []
  | .num n => n ≠ 0
  | .bool b => b
  | .null => false
  | .undef => false

/-- JS `String(v)` coercion of a `ParamValue`. -/
def jsToString : ParamValue → Str
  | .str s => s
  | .num n => (toString n).data
  | .bool b => if b then ("true".data) else ("false".data)
  | .null => ("null".data)
  | .undef => ("undefined".data)

/-- Object member access `o[k]`: the first binding of `k`, `undefined` when
absent. -/
def jsIndex (o : ParamObj) (k : Str) : ParamValue :=
  match o with
  | [] => .undef
  | kv :: rest => if kv.1 = k then kv.2 else jsIndex rest k

/-- Lookup in a string-valued map (JS `Map.get` / object access), `none` for
a missing key. -/
def jsGet {α : Type} : List (Str × α) → Str → Option α
  | [], _ => none
  | kv :: rest, key => if kv.1 = key then some kv.2 else jsGet rest key

/-- `Array.prototype.join(sep)`. -/
def jsJoin (sep : Str) : List Str → Str
  | [] => []
  | [x] => x
  | x :: xs => x ++ sep ++ jsJoin sep xs

/-- The characters `encodeURIComponent` leaves unescaped:
`A–Z a–z 0–9 - _ . ! ~ * ' ( )`. -/
def isUriUnescaped (c : Char) : Bool :=
  (65 ≤ c.toNat ∧ c.toNat ≤ 90) ∨ (97 ≤ c.toNat ∧ c.toNat ≤ 122) ∨
  (48 ≤ c.toNat ∧ c.toNat ≤ 57) ∨
  c.toNat ∈ ([45, 95, 46, 33, 126, 42, 39, 40, 41] : List Nat)

/-- The UTF-8 bytes of a character (what `encodeURIComponent` percent-encodes). -/
def utf8Bytes (c : Char) : List Nat :=
  let n := c.toNat
  if n < 128 then [n]
  else if n < 2048 then [192 + n / 64, 128 + n % 64]
  else if n < 65536 then [224 + n / 4096, 128 + (n / 64) % 64, 128 + n % 64]
  else [240 + n / 262144, 128 + (n / 4096) % 64, 128 + (n / 64) % 64, 128 + n % 64]

/-- Upper-case hex digit of a value below 16. -/
def hexDigit (n : Nat) : Char :=
  if n < 10 then Char.ofNat (48 + n) else Char.ofNat (55 + n)

/-- One percent-escaped byte, `%XY` with upper-case hex. -/
def pctByte (b : Nat) : Str :=
  ['%', hexDigit (b / 16), hexDigit (b % 16)]

/-- JS `encodeURIComponent` on an already-stringified value. -/
def encodeURIComponent (s : Str) : Str :=
  s.flatMap fun c => if isUriUnescaped c then [c] else (utf8Bytes c).flatMap pctByte

/-- JS `String.prototype.indexOf` for a single character, as an `Option`
(`none` for `-1`). -/
def indexOfChar : Str → Char → Option Nat
  | [], _ => none
  | c :: rest, t => if c = t then some 0 else (indexOfChar rest t).map (· + 1)

/-- Whether `pat` occurs at the start of `s`. -/
def leadsWith : Str → Str → Bool
  | [], _ => true
  | _ :: _, [] => false
  | p :: ps, c :: cs => p = c ∧ leadsWith ps cs

/-- JS `String.prototype.indexOf` for a substring, as an `Option`. -/
def indexOfList : Str → Str → Option Nat
  | s, pat =>
    match s with
    | [] => if pat = [] then some 0 else none
    | _ :: rest => if leadsWith pat s then some 0 else (indexOfList rest pat).map (· + 1)

/-- `remove_query_area` of `utils.ts` / `link_generator.ts`: cut the template
at the first occurrence of the query marker `?`, provided it is not at
position 0 (`starting_query_index > 0`). -/
def remove_query_area (path : Str) : Str :=
  match indexOfChar path '?' with
  | some i => if 0 < i then path.take i else path
  | none => path

deriving instance DecidableEq for Except

/-- A route-configuration object: an ordered sequence of entries
`id ↦ { path, children }`, in first-sibling/rest encoding.
`cons id path children rest` is the entry `id: { path, children }` followed by
the remaining sibling entries `rest`. -/
inductive RouteForest where
  | nil : RouteForest
  | cons (id : Str) (path : Str) (children : RouteForest) (rest : RouteForest) : RouteForest
deriving DecidableEq

/-- `flatten_route_config` of `flatten_route_config.ts`: records
`parent_path ++ route.path` for every entry, and recurses into the children
with the accumulated path stripped of its query area
(`remove_query_area(full_path)`); child ids are prefixed `parent/`. -/
def flatten_route_config : RouteForest → Str → List (Str × Str)
  | .nil, _ => []
  | .cons id path children rest, parent_path =>
    let full_path := parent_path ++ path
    (id, full_path)
      :: ((flatten_route_config children (remove_query_area full_path)).map
            fun e => (id ++ '/' :: e.1, e.2))
      ++ flatten_route_config rest parent_path

namespace LGen

/-- The flattener embedded in `link_generator.ts` (lines 203–228): unlike the
stand-alone module it strips the query area from the route's own path
*before* recording it, and passes the recorded path down unchanged. -/
def flatten_route_config : RouteForest → Str → List (Str × Str)
  | .nil, _ => []
  | .cons id path children rest, parent_path =>
    let current_path := remove_query_area path
    let path_with_parent := parent_path ++ current_path
    (id, path_with_parent)
      :: ((flatten_route_config children path_with_parent).map
            fun e => (id ++ '/' :: e.1, e.2))
      ++ flatten_route_config rest parent_path

/-- JS line terminators, which `.` in a regular expression does not match. -/
def isLineTerm (c : Char) : Bool :=
  c = '\n' ∨ c = '\r' ∨ c = Char.ofNat 8232 ∨ c = Char.ofNat 8233

/-- The scanner behind `path.replace(/<.*?>/g, "")`: outside a candidate
(`pending = none`) characters pass through and `<` opens a candidate; inside
(`pending = some buf`, `buf` holding the scanned body reversed) the first `>`
closes and erases the candidate, a line terminator or the end of input makes
the candidate fail and re-emits it literally. -/
def rcaGo : Option Str → Str → Str
  | none, [] => []
  | none, c :: rest => if c = '<' then rcaGo (some []) rest else c :: rcaGo none rest
  | some buf, [] => '<' :: buf.reverse
  | some buf, c :: rest =>
    if c = '>' then rcaGo none rest
    else if isLineTerm c then ('<' :: buf.reverse) ++ c :: rcaGo none rest
    else rcaGo (some (c :: buf)) rest

/-- `remove_constraint_area` of `link_generator.ts`:
`path.replace(new RegExp("<.*?>", "g"), "")`. -/
def remove_constraint_area (path : Str) : Str := rcaGo none path

/-- `has_constraint_area` of `link_generator.ts`:
`path.indexOf("<") > 0`. -/
def has_constraint_area (path : Str) : Bool :=
  match indexOfChar path '<' with
  | some i => 0 < i
  | none => false

/-- `create_routes_map` of `link_generator.ts`: constraint areas are removed
from each flattened template (when `has_constraint_area` holds), keys are kept. -/
def create_routes_map (flat_route : List (Str × Str)) : List (Str × Str) :=
  flat_route.map fun e =>
    (e.1, if has_constraint_area e.2 then remove_constraint_area e.2 else e.2)

/-- The scanner behind `path.replace(/(?<=\/):([^\/?]+)/g, ...)` of
`replace_params_area`.  State `none`: outside a parameter name; a `:` that
follows a `/` and is itself followed by a name character (not `/` or `?`)
opens a name.  State `some buf`: inside a name (`buf` reversed); the name
extends greedily over every character other than `/` and `?`, and on its end
the match `:name` is replaced by `encodeURIComponent(params[name])` — the
leading `/` is lookbehind only and stays. -/
def rpaGo (params : ParamObj) : Option Str → Str → Str
  | some buf, [] => encodeURIComponent (jsToString (jsIndex params buf.reverse))
  | some buf, '/' :: ':' :: c :: rest =>
    if c ≠ '/' ∧ c ≠ '?' then
      encodeURIComponent (jsToString (jsIndex params buf.reverse))
        ++ '/' :: rpaGo params (some [c]) rest
    else
      encodeURIComponent (jsToString (jsIndex params buf.reverse))
        ++ '/' :: ':' :: rpaGo params none (c :: rest)
  | some buf, '/' :: rest =>
    encodeURIComponent (jsToString (jsIndex params buf.reverse))
      ++ '/' :: rpaGo params none rest
  | some buf, '?' :: rest =>
    encodeURIComponent (jsToString (jsIndex params buf.reverse))
      ++ '?' :: rpaGo params none rest
  | some buf, c :: rest => rpaGo params (some (c :: buf)) rest
  | none, '/' :: ':' :: c :: rest =>
    if c ≠ '/' ∧ c ≠ '?' then '/' :: rpaGo params (some [c]) rest
    else '/' :: ':' :: rpaGo params none (c :: rest)
  | none, c :: rest => c :: rpaGo params none rest
  | none, [] => []

/-- `replace_params_area` of `link_generator.ts`: every `:name` preceded by a
path separator is replaced by `encodeURIComponent(params[name])` (a missing
binding stringifies `undefined`). -/
def replace_params_area (path : Str) (params : ParamObj) : Str :=
  rpaGo params none path

/-- `create_query_string_from_object` of `link_generator.ts`: drop the pairs
whose value is `""` or `undefined` (strict `!==`, so `null` is kept), render
the rest as `key=encodeURIComponent(value)`, join with `&`. -/
def create_query_string_from_object (query : ParamObj) : Str :=
  jsJoin ['&']
    ((query.filter fun kv => ¬ (kv.2 = .str [] ∨ kv.2 = .undef)).map
      fun kv => kv.1 ++ '=' :: encodeURIComponent (jsToString kv.2))

/-- `generate_query_string` of `link_generator.ts`: concatenate the per-object
query strings, inserting `&` after each non-empty one, then cut one trailing
`&`. -/
def generate_query_string (query_params : List ParamObj) : Str :=
  let qs := query_params.foldl
    (fun acc q =>
      let piece := create_query_string_from_object q
      if piece ≠ [] then acc ++ piece ++ ['&'] else acc ++ piece)
    []
  if qs.getLast? = some '&' then qs.dropLast else qs

/-- `create_query_context` of `link_generator.ts`: merge the query objects
into one map from key to the list of all supplied values, keyed in first-seen
order. -/
def create_query_context (query_params : List ParamObj) : List (Str × List ParamValue) :=
  query_params.foldl
    (fun res q =>
      q.foldl
        (fun res kv =>
          match jsGet res kv.1 with
          | none => res ++ [(kv.1, [kv.2])]
          | some _ => res.map fun e => if e.1 = kv.1 then (e.1, e.2 ++ [kv.2]) else e)
        res)
    []

/-- The `RouteContext` handed to the `transform` hook: route id, current path
(after parameter substitution), the path parameters, and the merged query
context. -/
structure RouteContext where
  id : Str
  path : Str
  params : ParamObj
  query : List (Str × List ParamValue)

/-- The options of `link_generator`: `should_append_query` (default `true`)
and `transform` (default: identity over `ctx.path`); either member may be
absent. -/
structure LinkGeneratorOptions where
  should_append_query : Option Bool
  transform : Option (RouteContext → Option Str)

/-- The closure returned by `link_generator` (lines 122–166 of
`link_generator.ts`), over an already-built routes map: look the template up
(`Invalid route id` error when absent or falsy), short-circuit when neither
path parameters nor query objects were supplied, otherwise substitute
parameters, run the `transform` hook (`?? ctx.path`), and append
`?` + `generate_query_string(...)` when `should_append_query` holds and the
query string is non-empty. -/
def link (routes : List (Str × Str)) (options : Option LinkGeneratorOptions)
    (route_id : Str) (path_params : Option ParamObj) (query_params : List ParamObj) :
    Except Str Str :=
  let should_append_query := (options.bind (·.should_append_query)).getD true
  let transform := (options.bind (·.transform)).getD fun ctx => some ctx.path
  match jsGet routes route_id with
  | none => .error (("Invalid route id: ".data) ++ route_id)
  | some path_template =>
    if path_template = [] then .error (("Invalid route id: ".data) ++ route_id)
    else
      let ctx0 : RouteContext := ⟨route_id, path_template, [], []⟩
      if path_params = none ∧ query_params = [] then
        .ok ((transform ctx0).getD ctx0.path)
      else
        let ctx1 := match path_params with
          | some pp => { ctx0 with params := pp, path := replace_params_area path_template pp }
          | none => ctx0
        let ctx2 := if query_params ≠ [] then
            { ctx1 with query := create_query_context query_params }
          else ctx1
        let path := (transform ctx2).getD ctx2.path
        if should_append_query ∧ query_params ≠ [] then
          let qs := generate_query_string query_params
          if qs ≠ [] then .ok (path ++ '?' :: qs) else .ok path
        else .ok path

/-- `link_generator` of `link_generator.ts`: flatten the configuration, build
the routes map (constraint removal), and return the rendering closure. -/
def link_generator (route_config : RouteForest) (options : Option LinkGeneratorOptions)
    (route_id : Str) (path_params : Option ParamObj) (query_params : List ParamObj) :
    Except Str Str :=
  link (create_routes_map (flatten_route_config route_config [])) options
    route_id path_params query_params

end LGen

namespace Gen

/-- `isRootPath` of `generator.ts`. -/
def isRootPath (path : Str) : Bool := path = ['/']

/-- `removeQueryArea` of `generator.ts`: cut at the first occurrence of the
two-character marker `/?` (`PathSeparater + Search`), provided its index is
positive. -/
def removeQueryArea (path : Str) : Str :=
  match indexOfList path ('/' :: '?' :: []) with
  | some i => if 0 < i then path.take i else path
  | none => path

/-- `removeConstrainedArea` of `generator.ts`: the same
`replace(/<.*?>/g, "")` as `remove_constraint_area`, applied unconditionally. -/
def removeConstrainedArea (path : Str) : Str := LGen.rcaGo none path

/-- The replacement `replaceParams` performs for one matched parameter
segment `/:name` (with its optional trailing `?` already consumed): nothing
when no parameter object was supplied or the value is falsy (the whole
segment collapses), otherwise `/` + the encoded value. -/
def replOpt (params : Option ParamObj) (name : Str) : Str :=
  match params with
  | none => []
  | some ps =>
    let v := jsIndex ps name
    if jsTruthy v then '/' :: encodeURIComponent (jsToString v) else []

/-- The scanner behind `path.replace(/\/:([^\/?]+)\??/g, ...)` of
`replaceParams` (`generator.ts`).  The leading `/` belongs to the match, the
name extends greedily over characters other than `/` and `?`, and one
trailing `?` (the optional marker) is consumed by the match. -/
def rpGo (params : Option ParamObj) : Option Str → Str → Str
  | some buf, [] => replOpt params buf.reverse
  | some buf, '?' :: rest => replOpt params buf.reverse ++ rpGo params none rest
  | some buf, '/' :: ':' :: c :: rest =>
    if c ≠ '/' ∧ c ≠ '?' then replOpt params buf.reverse ++ rpGo params (some [c]) rest
    else replOpt params buf.reverse ++ '/' :: ':' :: rpGo params none (c :: rest)
  | some buf, '/' :: rest => replOpt params buf.reverse ++ '/' :: rpGo params none rest
  | some buf, c :: rest => rpGo params (some (c :: buf)) rest
  | none, '/' :: ':' :: c :: rest =>
    if c ≠ '/' ∧ c ≠ '?' then rpGo params (some [c]) rest
    else '/' :: ':' :: rpGo params none (c :: rest)
  | none, c :: rest => c :: rpGo params none rest
  | none, [] => []

/-- `replaceParams` of `generator.ts` (lines 100–118). -/
def replaceParams (path : Str) (params : Option ParamObj) : Str :=
  rpGo params none path

/-- `createSearchParams` of `generator.ts`: drops values `""`, `undefined`
*and* `null`, renders `key=encodeURIComponent(value)` joined by `&`. -/
def createSearchParams (search : ParamObj) : Str :=
  jsJoin ['&']
    ((search.filter fun kv => ¬ (kv.2 = .str [] ∨ kv.2 = .undef ∨ kv.2 = .null)).map
      fun kv => kv.1 ++ '=' :: encodeURIComponent (jsToString kv.2))

/-- The closure returned by `createLinkGenerator` of `generator.ts`: template
lookup (`none` models the crash on a missing id), the `"/"` short-circuit,
query-area and constraint removal, parameter substitution, and conditional
query-string appending. -/
def createLinkGenerator (flatRouteConfig : List (Str × Str)) (routeId : Str)
    (params : Option ParamObj) (search : Option ParamObj) : Option Str :=
  match jsGet flatRouteConfig routeId with
  | none => none
  | some pathTemplate =>
    if isRootPath pathTemplate then some ['/']
    else
      let path := removeQueryArea pathTemplate
      let path := removeConstrainedArea path
      let path := replaceParams path params
      match search with
      | some sq =>
        let searchParams := createSearchParams sq
        if searchParams ≠ [] then some (path ++ '?' :: searchParams) else some path
      | none => some path

end Gen

namespace FCfg

/-- Whether a character is in the regex class `[a-zA-Z]`. -/
def jsAlpha (c : Char) : Bool :=
  (65 ≤ c.toNat ∧ c.toNat ≤ 90) ∨ (97 ≤ c.toNat ∧ c.toNat ≤ 122)

/-- `isAbsoluteRoute` of `flattenConfig.ts`: the route id starts with the
absolute-route marker `*`. -/
def isAbsoluteRoute (routeId : Str) : Bool := routeId.head? = some '*'

/-- `removeExtraSeparatorFromBeforeProtocol` of `flattenConfig.ts`:
`path.slice(1)`. -/
def removeExtraSeparatorFromBeforeProtocol (path : Str) : Str := path.drop 1

/-- `removeExtraSeparatorFromAfterProtocol` of `flattenConfig.ts`:
`path.replace(/([a-zA-Z]+:)\/(?=\/\/)/, protocol)` — find the first position
where a letter is followed by `:///` and delete the slash right after the
colon (non-global: at most one deletion). -/
def removeExtraSeparatorFromAfterProtocol : Str → Str
  | [] => []
  | [a] => [a]
  | a :: b :: rest =>
    if jsAlpha a ∧ b = ':' ∧ rest.take 3 = ('/' :: '/' :: '/' :: []) then
      a :: b :: rest.drop 1
    else a :: removeExtraSeparatorFromAfterProtocol (b :: rest)

/-- Whether the pattern `[a-zA-Z]:///` occurs anywhere (the regex above has a
match). -/
def hasProtoWindow : Str → Bool
  | a :: b :: rest =>
    (jsAlpha a ∧ b = ':' ∧ rest.take 3 = ('/' :: '/' :: '/' :: []))
      ∨ hasProtoWindow (b :: rest)
  | _ => false

/-- `removeExtraSeparatorsFromProtocolField` of `flattenConfig.ts`. -/
def removeExtraSeparatorsFromProtocolField (routeId : Str) (path : Str) : Str :=
  if isAbsoluteRoute routeId then removeExtraSeparatorFromBeforeProtocol path
  else removeExtraSeparatorFromAfterProtocol path

/-- `flattenRouteConfig` of `flattenConfig.ts` (lines 40–73): joins parent
and child with exactly one separator (none added when the child path already
starts with `/`), fixes protocol fields per entry, and re-applies the
after-protocol fix when copying child entries up. -/
def flattenRouteConfig : RouteForest → Str → List (Str × Str)
  | .nil, _ => []
  | .cons id path children rest, parentPath =>
    let fullPath0 := parentPath
      ++ (if path.head? = some '/' then ([] : Str) else ['/']) ++ path
    let fullPath := removeExtraSeparatorsFromProtocolField id fullPath0
    (id, fullPath)
      :: ((flattenRouteConfig children fullPath).map
            fun e => (id ++ '/' :: e.1, removeExtraSeparatorFromAfterProtocol e.2))
      ++ flattenRouteConfig rest parentPath

end FCfg

/-- A template interleaving plain text with constraint annotations:
`interleave p0 [(b1, p1), (b2, p2)] = p0 ++ "<" ++ b1 ++ ">" ++ p1 ++ "<" ++ b2 ++ ">" ++ p2`.
Every template whose `<`/`>` markers are balanced and non-nested has exactly
one such decomposition. -/
def interleave (p0 : Str) : List (Str × Str) → Str
  | [] => p0
  | (b, p) :: rest => p0 ++ '<' :: (b ++ '>' :: interleave p rest)

/-! ## General lemmas on the string helpers -/

theorem indexOfChar_of_not_mem {s : Str} {c : Char} (h : c ∉ s) :
    indexOfChar s c = none := by
  induction s with
  | nil => rfl
  | cons x rest ih =>
    have hx : x ≠ c := fun he => h (he ▸ List.mem_cons_self x rest)
    simp only [indexOfChar, hx, if_false]
    rw [ih (fun hm => h (List.mem_cons_of_mem x hm))]
    rfl

theorem indexOfChar_append_cons {pre : Str} {c : Char} (rest : Str) (h : c ∉ pre) :
    indexOfChar (pre ++ c :: rest) c = some pre.length := by
  induction pre with
  | nil => simp [indexOfChar]
  | cons x p ih =>
    have hx : x ≠ c := fun he => h (he ▸ List.mem_cons_self x p)
    have ihp := ih (fun hm => h (List.mem_cons_of_mem x hm))
    simp only [List.cons_append, indexOfChar, hx, if_false]
    rw [List.append_eq, ihp]
    rfl

theorem remove_query_area_of_not_mem {s : Str} (h : '?' ∉ s) :
    remove_query_area s = s := by
  simp [remove_query_area, indexOfChar_of_not_mem h]

theorem remove_query_area_split {base : Str} (q : Str) (hb : base ≠ [])
    (h : '?' ∉ base) : remove_query_area (base ++ '?' :: q) = base := by
  have hlen : 0 < base.length := List.length_pos.mpr hb
  simp [remove_query_area, indexOfChar_append_cons q h, hlen,
    List.take_left]

theorem jsGet_map_value {α β : Type} (f : α → β) (l : List (Str × α)) (k : Str) :
    jsGet (l.map fun e => (e.1, f e.2)) k = (jsGet l k).map f := by
  induction l with
  | nil => rfl
  | cons e rest ih =>
    by_cases he : e.1 = k
    · simp [jsGet, he]
    · simp [jsGet, he, ih]

theorem ne_append_cons (a b : Str) (c : Char) : a ≠ a ++ c :: b := by
  intro h
  have := congrArg List.length h
  simp at this

theorem jsJoin_ne_nil {x : Str} {xs : List Str} (hx : x ≠ []) :
    jsJoin ['&'] (x :: xs) ≠ [] := by
  cases xs with
  | nil => simpa [jsJoin] using hx
  | cons y ys =>
    simp only [jsJoin]
    intro h
    exact hx (by simpa using (List.append_eq_nil.mp (List.append_eq_nil.mp h).1).1)

/-! ## The parameter-substitution scanner of `link_generator.ts` -/

namespace LGen

theorem rpaGo_pass (ps : ParamObj) (c : Char) (rest : Str)
    (h : c ≠ '/' ∨ rest.head? ≠ some ':') :
    rpaGo ps none (c :: rest) = c :: rpaGo ps none rest := by
  by_cases hc : c = '/'
  · subst hc
    rcases rest with _ | ⟨r0, rtl⟩
    · simp [rpaGo]
    · have hr0 : r0 ≠ ':' := by
        rcases h with h | h
        · exact absurd rfl h
        · intro he; exact h (by simp [he])
      by_cases h2 : r0 = '/'
      · subst h2; simp [rpaGo]
      · by_cases h3 : r0 = '?'
        · subst h3; simp [rpaGo]
        · simp [rpaGo, hr0, h2, h3]
  · by_cases h3 : c = '?'
    · subst h3; simp [rpaGo]
    · simp [rpaGo, hc, h3]

/-- A parameter-free string (no `:` anywhere) passes through unchanged. -/
theorem rpaGo_no_colon (ps : ParamObj) {s : Str} (h : ':' ∉ s) :
    rpaGo ps none s = s := by
  induction s with
  | nil => rfl
  | cons c rest ih =>
    have hcond : c ≠ '/' ∨ rest.head? ≠ some ':' := by
      right
      cases rest with
      | nil => simp
      | cons r0 rtl =>
        simp only [List.head?_cons, ne_eq, Option.some.injEq]
        intro he
        exact h (by simp [he])
    rw [rpaGo_pass ps c rest hcond, ih fun hm => h (List.mem_cons_of_mem c hm)]

/-- A colon-free region before a segment that does not begin with `:` is
emitted unchanged. -/
theorem rpaGo_pass_over (ps : ParamObj) (a s : Str) (ha : ':' ∉ a)
    (hs : s.head? ≠ some ':') :
    rpaGo ps none (a ++ s) = a ++ rpaGo ps none s := by
  induction a with
  | nil => rfl
  | cons x a' ih =>
    have hcond : x ≠ '/' ∨ (a' ++ s).head? ≠ some ':' := by
      right
      cases a' with
      | nil => simpa using hs
      | cons y a'' =>
        simp only [List.cons_append, List.head?_cons, ne_eq, Option.some.injEq]
        intro he
        exact ha (by simp [he])
    rw [List.cons_append, rpaGo_pass ps x _ hcond,
      ih fun hm => ha (List.mem_cons_of_mem x hm)]
    rfl

theorem rpaGo_buf_accum (ps : ParamObj) (buf : Str) {ch : Char} (rest : Str)
    (h1 : ch ≠ '/') (h2 : ch ≠ '?') :
    rpaGo ps (some buf) (ch :: rest) = rpaGo ps (some (ch :: buf)) rest := by
  simp [rpaGo, h1, h2]

/-- Inside a parameter name, the scanner accumulates the remaining name
characters, then substitutes the looked-up value and leaves a colon-free
tail that starts with `/` or `?` (or is empty) unchanged. -/
theorem rpaGo_name (ps : ParamObj) (nm b buf : Str)
    (hnm : ∀ ch ∈ nm, ch ≠ '/' ∧ ch ≠ '?')
    (hb : b = [] ∨ b.head? = some '/' ∨ b.head? = some '?')
    (hbc : ':' ∉ b) :
    rpaGo ps (some buf) (nm ++ b)
      = encodeURIComponent (jsToString (jsIndex ps (buf.reverse ++ nm))) ++ b := by
  induction nm generalizing buf with
  | nil =>
    rcases hb with hb | hb | hb
    · subst hb
      simp [rpaGo]
    · rcases b with _ | ⟨b0, rest⟩
      · simp at hb
      · have hb0 : b0 = '/' := by simpa using hb
        subst hb0
        have hrest : ':' ∉ rest := fun hm => hbc (List.mem_cons_of_mem _ hm)
        rcases rest with _ | ⟨r0, rtl⟩
        · simp [rpaGo]
        · have hr0 : r0 ≠ ':' := fun he => hrest (by simp [he])
          have hrtl : ':' ∉ rtl := fun hm => hrest (List.mem_cons_of_mem _ hm)
          by_cases h2 : r0 = '/'
          · subst h2
            simp [rpaGo, rpaGo_no_colon ps hrest]
          · by_cases h3 : r0 = '?'
            · subst h3
              simp [rpaGo, rpaGo_no_colon ps hrtl]
            · simp [rpaGo, hr0, h2, h3, rpaGo_no_colon ps hrest]
    · rcases b with _ | ⟨b0, rest⟩
      · simp at hb
      · have hb0 : b0 = '?' := by simpa using hb
        subst hb0
        have hrest : ':' ∉ rest := fun hm => hbc (List.mem_cons_of_mem _ hm)
        simp [rpaGo, rpaGo_no_colon ps hrest]
  | cons ch nm' ih =>
    have hch := hnm ch (List.mem_cons_self ch nm')
    rw [List.cons_append, rpaGo_buf_accum ps buf _ hch.1 hch.2,
      ih (ch :: buf) (fun d hd => hnm d (List.mem_cons_of_mem ch hd))]
    simp

/-- Opening step: at `/:c…` with a valid first name character the scanner
emits the `/` and enters name state. -/
theorem rpaGo_open (ps : ParamObj) {c : Char} (rest : Str)
    (h1 : c ≠ '/') (h2 : c ≠ '?') :
    rpaGo ps none ('/' :: ':' :: c :: rest) = '/' :: rpaGo ps (some [c]) rest := by
  simp [rpaGo, h1, h2]

/-- `replace_params_area` on a template whose single parameter marker
`/:name` sits between a colon-free region `a` and a colon-free tail `b`
(empty or starting with `/` or `?`): the marker is replaced by the encoded
stringification of `params[name]`. -/
theorem replace_params_area_single (ps : ParamObj) (a nm b : Str)
    (ha : ':' ∉ a) (hnm0 : nm ≠ []) (hnm : ∀ ch ∈ nm, ch ≠ '/' ∧ ch ≠ '?')
    (hb : b = [] ∨ b.head? = some '/' ∨ b.head? = some '?') (hbc : ':' ∉ b) :
    replace_params_area (a ++ '/' :: ':' :: nm ++ b) ps
      = a ++ '/' :: encodeURIComponent (jsToString (jsIndex ps nm)) ++ b := by
  rcases nm with _ | ⟨c, nm'⟩
  · exact absurd rfl hnm0
  · have hc := hnm c (List.mem_cons_self c nm')
    unfold replace_params_area
    rw [List.append_assoc]
    simp only [List.cons_append]
    rw [rpaGo_pass_over ps a ('/' :: ':' :: c :: (nm' ++ b)) ha (by simp),
      rpaGo_open ps _ hc.1 hc.2,
      rpaGo_name ps nm' b [c] (fun d hd => hnm d (List.mem_cons_of_mem c hd)) hb hbc]
    simp [List.append_assoc]

/-! ### Unfolding the rendering closure -/

theorem link_not_found (routes : List (Str × Str)) (options : Option LinkGeneratorOptions)
    (id : Str) (pp : Option ParamObj) (qp : List ParamObj)
    (h : jsGet routes id = none) :
    link routes options id pp qp = .error (("Invalid route id: ".data) ++ id) := by
  simp [link, h]

theorem link_static (routes : List (Str × Str)) (id t : Str)
    (h : jsGet routes id = some t) (ht : t ≠ []) :
    link routes none id none [] = .ok t := by
  simp [link, h, ht]

theorem link_params_only (routes : List (Str × Str)) (id t : Str) (ps : ParamObj)
    (h : jsGet routes id = some t) (ht : t ≠ []) :
    link routes none id (some ps) [] = .ok (replace_params_area t ps) := by
  simp [link, h, ht]

theorem link_query_shape (routes : List (Str × Str)) (id t : Str) (chunks : List ParamObj)
    (h : jsGet routes id = some t) (ht : t ≠ []) :
    link routes none id none chunks
      = .ok (t ++ (if generate_query_string chunks = []
                   then [] else '?' :: generate_query_string chunks)) := by
  cases chunks with
  | nil => simp [link, h, ht, generate_query_string]
  | cons q qs =>
    by_cases hq : generate_query_string (q :: qs) = [] <;> simp [link, h, ht, hq]

end LGen

/-! ## The query-string pipeline of `link_generator.ts` -/

namespace LGen

theorem jsJoin_cons (sep : Str) (x : Str) {xs : List Str} (h : xs ≠ []) :
    jsJoin sep (x :: xs) = x ++ sep ++ jsJoin sep xs := by
  cases xs with
  | nil => exact absurd rfl h
  | cons y ys => rfl

theorem jsJoin_append (sep : Str) {l1 l2 : List Str} (h1 : l1 ≠ []) (h2 : l2 ≠ []) :
    jsJoin sep (l1 ++ l2) = jsJoin sep l1 ++ sep ++ jsJoin sep l2 := by
  induction l1 with
  | nil => exact absurd rfl h1
  | cons x l1' ih =>
    cases l1' with
    | nil =>
      rw [List.singleton_append, jsJoin_cons sep x h2]
      rfl
    | cons z zs =>
      rw [List.cons_append, jsJoin_cons sep x (by simp),
        jsJoin_cons sep x (by simp), ih (by simp)]
      simp [List.append_assoc]

theorem gqs_foldl (chunks : List ParamObj) (acc : Str) :
    chunks.foldl
      (fun acc q =>
        let piece := create_query_string_from_object q
        if piece ≠ [] then acc ++ piece ++ ['&'] else acc ++ piece) acc
    = acc ++ ((chunks.map create_query_string_from_object).filter
        (· ≠ [])).flatMap (· ++ ['&']) := by
  induction chunks generalizing acc with
  | nil => simp
  | cons q rest ih =>
    rw [List.foldl_cons, List.map_cons]
    by_cases hp : create_query_string_from_object q = []
    · rw [List.filter_cons_of_neg (by simp [hp])]
      have hstep : (if create_query_string_from_object q ≠ []
          then acc ++ create_query_string_from_object q ++ ['&']
          else acc ++ create_query_string_from_object q) = acc := by
        simp [hp]
      show List.foldl _ (if create_query_string_from_object q ≠ []
          then acc ++ create_query_string_from_object q ++ ['&']
          else acc ++ create_query_string_from_object q) rest = _
      rw [hstep, ih]
    · rw [List.filter_cons_of_pos (by simpa using hp)]
      have hstep : (if create_query_string_from_object q ≠ []
          then acc ++ create_query_string_from_object q ++ ['&']
          else acc ++ create_query_string_from_object q)
          = acc ++ create_query_string_from_object q ++ ['&'] := by
        simp [hp]
      show List.foldl _ (if create_query_string_from_object q ≠ []
          then acc ++ create_query_string_from_object q ++ ['&']
          else acc ++ create_query_string_from_object q) rest = _
      rw [hstep, ih, List.flatMap_cons]
      simp [List.append_assoc]

theorem flatMap_amp_eq (ps : List Str) :
    ps.flatMap (· ++ ['&'])
      = if ps = [] then [] else jsJoin ['&'] ps ++ ['&'] := by
  induction ps with
  | nil => rfl
  | cons p rest ih =>
    cases rest with
    | nil => simp [jsJoin]
    | cons r rs =>
      rw [List.flatMap_cons, ih, jsJoin_cons ['&'] p (by simp)]
      simp [List.append_assoc]

/-- `generate_query_string` is the `&`-join of the non-empty per-object query
strings. -/
theorem generate_query_string_eq (chunks : List ParamObj) :
    generate_query_string chunks
      = jsJoin ['&'] ((chunks.map create_query_string_from_object).filter (· ≠ [])) := by
  unfold generate_query_string
  rw [gqs_foldl, List.nil_append, flatMap_amp_eq]
  by_cases hps : (chunks.map create_query_string_from_object).filter (· ≠ []) = []
  · rw [if_pos hps, hps]
    rfl
  · rw [if_neg hps]
    show (if (jsJoin ['&'] ((chunks.map create_query_string_from_object).filter (· ≠ []))
            ++ ['&']).getLast? = some '&'
          then (jsJoin ['&'] ((chunks.map create_query_string_from_object).filter (· ≠ []))
            ++ ['&']).dropLast
          else jsJoin ['&'] ((chunks.map create_query_string_from_object).filter (· ≠ []))
            ++ ['&'])
        = jsJoin ['&'] ((chunks.map create_query_string_from_object).filter (· ≠ []))
    rw [List.getLast?_concat]
    simp [List.dropLast_concat]

theorem cqsfo_eq_nil_iff (q : ParamObj) :
    create_query_string_from_object q = []
      ↔ (q.filter fun kv => ¬ (kv.2 = .str [] ∨ kv.2 = .undef)) = [] := by
  unfold create_query_string_from_object
  cases hf : q.filter fun kv => ¬ (kv.2 = .str [] ∨ kv.2 = .undef) with
  | nil => simp [jsJoin]
  | cons kv rest =>
    simp only [hf, List.map_cons]
    constructor
    · intro h
      exact absurd h (jsJoin_ne_nil (by simp))
    · intro h
      exact absurd h (by simp)

theorem filter_map_jsJoin_nil_iff (rest : List (List Str))
    (h : ∀ l ∈ rest, ∀ x ∈ l, x ≠ []) :
    ((rest.map (jsJoin ['&'])).filter (· ≠ []) = []) ↔ rest.flatten = [] := by
  induction rest with
  | nil => simp
  | cons l r ih =>
    have hr := ih fun l' hl' x hx => h l' (List.mem_cons_of_mem _ hl') x hx
    by_cases hl : l = []
    · subst hl
      simpa [jsJoin] using hr
    · have hjl : jsJoin ['&'] l ≠ [] := by
        rcases l with _ | ⟨x, xs⟩
        · exact absurd rfl hl
        · exact jsJoin_ne_nil (h _ (List.mem_cons_self _ _) x (List.mem_cons_self x xs))
      simp [hjl, hl]

/-- Joining the non-empty per-group joins equals joining all the strings, for
groups of non-empty strings. -/
theorem jsJoin_filter_flatten (Ls : List (List Str))
    (h : ∀ l ∈ Ls, ∀ x ∈ l, x ≠ []) :
    jsJoin ['&'] ((Ls.map (jsJoin ['&'])).filter (· ≠ []))
      = jsJoin ['&'] Ls.flatten := by
  induction Ls with
  | nil => rfl
  | cons l rest ih =>
    have hrest := fun l' hl' x hx => h l' (List.mem_cons_of_mem _ hl') x hx
    have ihr := ih hrest
    by_cases hl : l = []
    · subst hl
      rw [List.map_cons, show jsJoin ['&'] ([] : List Str) = [] from rfl,
        List.filter_cons_of_neg (by simp), ihr, List.flatten_cons, List.nil_append]
    · have hjl : jsJoin ['&'] l ≠ [] := by
        rcases l with _ | ⟨x, xs⟩
        · exact absurd rfl hl
        · exact jsJoin_ne_nil (h _ (List.mem_cons_self _ _) x (List.mem_cons_self x xs))
      by_cases hfr : ((rest.map (jsJoin ['&'])).filter (· ≠ [])) = []
      · have hrj : rest.flatten = [] := (filter_map_jsJoin_nil_iff rest hrest).mp hfr
        rw [List.map_cons, List.filter_cons_of_pos (by simpa using hjl), hfr,
          List.flatten_cons, hrj, List.append_nil]
        rfl
      · have hrj : rest.flatten ≠ [] :=
          fun he => hfr ((filter_map_jsJoin_nil_iff rest hrest).mpr he)
        rw [List.map_cons, List.filter_cons_of_pos (by simpa using hjl),
          jsJoin_cons ['&'] _ hfr, ihr, List.flatten_cons,
          jsJoin_append ['&'] hl hrj]

/-- `generate_query_string`, rephrased over the surviving pairs themselves:
the pairs whose value is neither `""` nor `undefined`, in supply order,
rendered `key=encodeURIComponent(value)` and joined by `&`. -/
theorem generate_query_string_pairs (chunks : List ParamObj) :
    generate_query_string chunks
      = jsJoin ['&']
          (((chunks.map fun q =>
              q.filter fun kv => ¬ (kv.2 = .str [] ∨ kv.2 = .undef)).flatten).map
            fun kv => kv.1 ++ '=' :: encodeURIComponent (jsToString kv.2)) := by
  rw [generate_query_string_eq]
  have hmap : chunks.map create_query_string_from_object
      = (chunks.map fun q =>
          (q.filter fun kv => ¬ (kv.2 = .str [] ∨ kv.2 = .undef)).map
            fun kv => kv.1 ++ '=' :: encodeURIComponent (jsToString kv.2)).map
          (jsJoin ['&']) := by
    rw [List.map_map]
    rfl
  rw [hmap, jsJoin_filter_flatten _ ?nonnil]
  case nonnil =>
    intro l hl x hx
    simp only [List.mem_map] at hl
    obtain ⟨q, hq, rfl⟩ := hl
    simp only [List.mem_map] at hx
    obtain ⟨kv, hkv, rfl⟩ := hx
    simp
  congr 1
  rw [List.map_flatten, List.map_map]
  rfl

end LGen

/-! ## The claims -/

/-- Claim C1 (code bug).  Unknown route ids make the renderer throw the
`Invalid route id` error echoing the requested id — but for the empty-string
id the code produces `"Invalid route id: "` (the id echoed, i.e. nothing),
not the distinguished `"Invalid route id: EMPTY_STRING"` message that the
repository's own README and test suite require. -/
theorem c1_unknown_and_empty_id_error :
    (LGen.link_generator (.cons ("home".data) ("/".data) .nil .nil) none
        ("nonexistent".data) none []
      = .error ("Invalid route id: nonexistent".data)) ∧
    (LGen.link_generator (.cons ("home".data) ("/".data) .nil .nil) none [] none []
      = .error ("Invalid route id: ".data)) ∧
    ("Invalid route id: ".data) ≠ ("Invalid route id: EMPTY_STRING".data) :=
  ⟨by decide, by decide, by decide⟩

/-- Claim C2.  For a two-level tree `{p: {path: P, children: {c: {path: C}}}}`,
`flatten_route_config` maps `p` to `P` unchanged and `p/c` to `P` with its
query area removed (everything from a positive-position `?` on) concatenated
with `C` — exactly, with no separator manipulation at the join. -/
theorem c2_flatten_composition (p c P C : Str) :
    (jsGet (flatten_route_config (.cons p P (.cons c C .nil .nil) .nil) []) p = some P) ∧
    ('?' ∉ P →
      jsGet (flatten_route_config (.cons p P (.cons c C .nil .nil) .nil) [])
        (p ++ '/' :: c) = some (P ++ C)) ∧
    (∀ base q, P = base ++ '?' :: q → base ≠ [] → '?' ∉ base →
      jsGet (flatten_route_config (.cons p P (.cons c C .nil .nil) .nil) [])
        (p ++ '/' :: c) = some (base ++ C)) := by
  have hm : flatten_route_config (.cons p P (.cons c C .nil .nil) .nil) []
      = [(p, P), (p ++ '/' :: c, remove_query_area P ++ C)] := by
    simp [flatten_route_config]
  have hk : ¬ (p = p ++ '/' :: c) := ne_append_cons p c '/'
  refine ⟨?_, ?_, ?_⟩
  · rw [hm]; simp [jsGet]
  · intro h
    rw [hm]
    simp [jsGet, hk, remove_query_area_of_not_mem h]
  · intro base q hPq hb hqb
    subst hPq
    rw [hm]
    simp [jsGet, hk, remove_query_area_split q hb hqb]

/-- Witness for C2 at a concrete tree: `P = "/users?page"`, `C = "/c"`. -/
theorem c2_flatten_composition_witness :
    (jsGet (flatten_route_config
        (.cons ("p".data) ("/users?page".data) (.cons ("c".data) ("/c".data) .nil .nil) .nil) [])
      ("p".data) = some ("/users?page".data)) ∧
    (jsGet (flatten_route_config
        (.cons ("p".data) ("/users?page".data) (.cons ("c".data) ("/c".data) .nil .nil) .nil) [])
      ("p/c".data) = some ("/users/c".data)) := by
  obtain ⟨h1, -, h3⟩ :=
    c2_flatten_composition ("p".data) ("c".data) ("/users?page".data) ("/c".data)
  have h4 := h3 ("/users".data) ("page".data) (by decide) (by decide) (by decide)
  exact ⟨h1, by rw [show ("p/c".data) = ("p".data) ++ '/' :: ("c".data) from by decide, h4]; decide⟩

/-- Claim C8.  A route whose looked-up template is a non-empty string renders,
with no parameter and no query argument, to exactly that template: the
short-circuit in `link_generator` returns the stored (constraint-stripped)
template as-is.  The embedding is a pure function, so the result is the same
for every call and call order. -/
theorem c8_static_route_idempotent (cfg : RouteForest) (id t : Str)
    (h : jsGet (LGen.create_routes_map (LGen.flatten_route_config cfg [])) id = some t)
    (ht : t ≠ []) :
    LGen.link_generator cfg none id none [] = .ok t := by
  unfold LGen.link_generator
  exact LGen.link_static _ id t h ht

/-- Witness for C8: the static route `about ↦ "/about"`. -/
theorem c8_static_route_idempotent_witness :
    LGen.link_generator (.cons ("about".data) ("/about".data) .nil .nil) none
      ("about".data) none [] = .ok ("/about".data) :=
  c8_static_route_idempotent (.cons ("about".data) ("/about".data) .nil .nil)
    ("about".data) ("/about".data) (by decide) (by decide)

/-- Claim C10.  For a template holding a required parameter marker `/:name`
(colon-free region before it, colon-free tail starting with `/` or `?` or
empty after it), rendering with a parameter object that has no binding for
`name` neither throws nor leaves the raw marker: the marker is replaced by
the encoded stringification of `undefined`, so the output carries the literal
segment `undefined`. -/
theorem c10_missing_param_renders_undefined (routes : List (Str × Str))
    (id a nm b : Str) (ps : ParamObj)
    (h : jsGet routes id = some (a ++ '/' :: ':' :: nm ++ b))
    (ha : ':' ∉ a) (hnm0 : nm ≠ []) (hnm : ∀ ch ∈ nm, ch ≠ '/' ∧ ch ≠ '?')
    (hb : b = [] ∨ b.head? = some '/' ∨ b.head? = some '?') (hbc : ':' ∉ b)
    (hmiss : jsIndex ps nm = .undef) :
    LGen.link routes none id (some ps) [] = .ok (a ++ '/' :: ("undefined".data) ++ b) := by
  have ht : (a ++ '/' :: ':' :: nm ++ b) ≠ [] := by simp
  rw [LGen.link_params_only routes id _ ps h ht,
    LGen.replace_params_area_single ps a nm b ha hnm0 hnm hb hbc, hmiss]
  have henc : encodeURIComponent (jsToString .undef) = ("undefined".data) := by decide
  rw [henc]

/-- Witness for C10: template `/products/:id`, parameter object without `id`. -/
theorem c10_missing_param_renders_undefined_witness :
    LGen.link [(("products".data), ("/products/:id".data))] none ("products".data)
      (some [(("size".data), .str ("sm".data))]) [] = .ok ("/products/undefined".data) := by
  have h := c10_missing_param_renders_undefined
    [(("products".data), ("/products/:id".data))] ("products".data)
    ("/products".data) ("id".data) [] [(("size".data), .str ("sm".data))]
    (by decide) (by decide) (by decide) (by decide) (Or.inl rfl) (by decide) (by decide)
  exact h.trans (by decide)

/-- Claim C9.  The `transform` hook receives the context whose `path` is the
parameter-substituted template (so it runs after substitution), its result
(`?? ctx.path`) is the base path, and `should_append_query` decides whether
the query string is appended after that base: with `false` the hook's path is
returned as-is (never any query appended), with `true` — or with the option
absent, the default — the non-empty query string is appended after it. -/
theorem c9_transform_hook_and_append_query (routes : List (Str × Str)) (id t : Str)
    (f : LGen.RouteContext → Option Str) (pp : Option ParamObj) (qs : List ParamObj)
    (h : jsGet routes id = some t) (ht : t ≠ []) (hq : qs ≠ []) :
    (LGen.link routes (some ⟨some false, some f⟩) id pp qs
      = .ok ((f ⟨id, (match pp with
                      | some p => LGen.replace_params_area t p
                      | none => t), pp.getD [], LGen.create_query_context qs⟩).getD
             (match pp with
              | some p => LGen.replace_params_area t p
              | none => t))) ∧
    (LGen.link routes (some ⟨none, some f⟩) id pp qs
      = LGen.link routes (some ⟨some true, some f⟩) id pp qs) ∧
    (LGen.link routes (some ⟨some true, some f⟩) id pp qs
      = .ok (((f ⟨id, (match pp with
                       | some p => LGen.replace_params_area t p
                       | none => t), pp.getD [], LGen.create_query_context qs⟩).getD
              (match pp with
               | some p => LGen.replace_params_area t p
               | none => t))
             ++ (if LGen.generate_query_string qs = []
                 then [] else '?' :: LGen.generate_query_string qs))) := by
  rcases qs with _ | ⟨q, qrest⟩
  · exact absurd rfl hq
  · cases pp with
    | none =>
      refine ⟨?_, ?_, ?_⟩ <;>
        by_cases hgq : LGen.generate_query_string (q :: qrest) = [] <;>
          simp [LGen.link, h, ht, hgq]
    | some p =>
      refine ⟨?_, ?_, ?_⟩ <;>
        by_cases hgq : LGen.generate_query_string (q :: qrest) = [] <;>
          simp [LGen.link, h, ht, hgq]

/-- Witness for C9: one query object, a hook prefixing `!`, both option
values. -/
theorem c9_transform_hook_and_append_query_witness :
    (LGen.link [(("r".data), ("/r/:x".data))]
        (some ⟨some false, some fun ctx => some ('!' :: ctx.path)⟩) ("r".data)
        (some [(("x".data), .str ("v".data))]) [[(("k".data), .str ("w".data))]]
      = .ok ("!/r/v".data)) ∧
    (LGen.link [(("r".data), ("/r/:x".data))]
        (some ⟨some true, some fun ctx => some ('!' :: ctx.path)⟩) ("r".data)
        (some [(("x".data), .str ("v".data))]) [[(("k".data), .str ("w".data))]]
      = .ok ("!/r/v?k=w".data)) := by
  obtain ⟨h1, -, h3⟩ := c9_transform_hook_and_append_query
    [(("r".data), ("/r/:x".data))] ("r".data) ("/r/:x".data)
    (fun ctx => some ('!' :: ctx.path)) (some [(("x".data), .str ("v".data))])
    [[(("k".data), .str ("w".data))]] (by decide) (by decide) (by decide)
  constructor
  · rw [h1]; rfl
  · rw [h3]; rfl

/-- Claim C4, counterexample.  The claim says a `null`-valued query pair is
dropped entirely; the code's filter (`value !== "" && value !== undefined`)
keeps `null`, which stringifies to the pair `k=null` in the output. -/
theorem c4_null_counterexample :
    (LGen.link [(("r".data), ("/r".data))] none ("r".data) none [[(("k".data), .null)]]
      = .ok ("/r?k=null".data)) ∧
    (LGen.link [(("r".data), ("/r".data))] none ("r".data) none [[(("k".data), .null)]]
      ≠ .ok ("/r".data)) :=
  ⟨by decide, by decide⟩

/-- Claim C4, amended.  A supplied query pair is dropped iff its value is the
empty string or `undefined` (`null` is kept and rendered `key=null`); when
every pair is droppable the returned path has no `?` suffix, and otherwise
exactly the surviving pairs appear, in supply order, joined by `&`. -/
theorem c4_amended_query_filtering (routes : List (Str × Str)) (id t : Str)
    (chunks : List ParamObj) (h : jsGet routes id = some t) (ht : t ≠ []) :
    LGen.link routes none id none chunks
      = .ok (t ++
          (if ((chunks.map fun q =>
                  q.filter fun kv => ¬ (kv.2 = .str [] ∨ kv.2 = .undef)).flatten) = []
           then []
           else '?' :: jsJoin ['&']
             (((chunks.map fun q =>
                   q.filter fun kv => ¬ (kv.2 = .str [] ∨ kv.2 = .undef)).flatten).map
               fun kv => kv.1 ++ '=' :: encodeURIComponent (jsToString kv.2)))) := by
  rw [LGen.link_query_shape routes id t chunks h ht, LGen.generate_query_string_pairs]
  cases hS : (chunks.map fun q =>
      q.filter fun kv => ¬ (kv.2 = .str [] ∨ kv.2 = .undef)).flatten with
  | nil => simp [jsJoin]
  | cons kv rest =>
    have hne : jsJoin ['&']
        ((kv.1 ++ '=' :: encodeURIComponent (jsToString kv.2)) ::
          (rest.map fun kv => kv.1 ++ '=' :: encodeURIComponent (jsToString kv.2))) ≠ [] :=
      jsJoin_ne_nil (by simp)
    simp [hne]

/-- Witness for C4 (amended): one droppable `""`, one droppable `undefined`,
one kept string, one kept `null`. -/
theorem c4_amended_query_filtering_witness :
    LGen.link [(("r".data), ("/r".data))] none ("r".data) none
      [[(("a".data), .str ("1".data)), (("b".data), .str [])],
       [(("c".data), .undef), (("d".data), .null)]]
      = .ok ("/r?a=1&d=null".data) := by
  have h := c4_amended_query_filtering [(("r".data), ("/r".data))] ("r".data) ("/r".data)
    [[(("a".data), .str ("1".data)), (("b".data), .str [])],
     [(("c".data), .undef), (("d".data), .null)]] (by decide) (by decide)
  exact h.trans (by decide)

/-- Claim C5.  Two query objects sharing a key produce one `key=value` pair
per occurrence, in supply order (`?a=x&a=y`), a later occurrence never
overwriting an earlier one. -/
theorem c5_repeated_query_keys_accumulate (routes : List (Str × Str)) (id t a x y : Str)
    (h : jsGet routes id = some t) (ht : t ≠ []) (hx : x ≠ []) (hy : y ≠ []) :
    LGen.link routes none id none [[(a, .str x)], [(a, .str y)]]
      = .ok (t ++ '?' :: (a ++ '=' :: encodeURIComponent x
          ++ '&' :: (a ++ '=' :: encodeURIComponent y))) := by
  rw [LGen.link_query_shape routes id t _ h ht, LGen.generate_query_string_pairs]
  have hfx : ([(a, ParamValue.str x)].filter
      fun kv => ¬ (kv.2 = .str [] ∨ kv.2 = .undef)) = [(a, .str x)] := by
    simp [hx]
  have hfy : ([(a, ParamValue.str y)].filter
      fun kv => ¬ (kv.2 = .str [] ∨ kv.2 = .undef)) = [(a, .str y)] := by
    simp [hy]
  rw [List.map_cons, List.map_cons, List.map_nil, hfx, hfy]
  simp [jsJoin, jsToString, List.append_assoc]

/-- Witness for C5: `link("posts", undefined, {a:"x"}, {a:"y"})` ends with
`?a=x&a=y`. -/
theorem c5_repeated_query_keys_accumulate_witness :
    LGen.link [(("posts".data), ("/posts".data))] none ("posts".data) none
      [[(("a".data), .str ("x".data))], [(("a".data), .str ("y".data))]]
      = .ok ("/posts?a=x&a=y".data) := by
  have h := c5_repeated_query_keys_accumulate [(("posts".data), ("/posts".data))]
    ("posts".data) ("/posts".data) ("a".data) ("x".data) ("y".data)
    (by decide) (by decide) (by decide) (by decide)
  exact h.trans (by decide)

/-! ## The constraint-removal scanner -/

namespace LGen

theorem rcaGo_pass {c : Char} (rest : Str) (h : c ≠ '<') :
    rcaGo none (c :: rest) = c :: rcaGo none rest := by
  simp [rcaGo, h]

theorem rcaGo_no_open {s : Str} (h : '<' ∉ s) : rcaGo none s = s := by
  induction s with
  | nil => rfl
  | cons c rest ih =>
    rw [rcaGo_pass rest (fun he => h (he ▸ List.mem_cons_self c rest)),
      ih fun hm => h (List.mem_cons_of_mem c hm)]

theorem rcaGo_pass_over {p : Str} (t : Str) (hp : '<' ∉ p) :
    rcaGo none (p ++ t) = p ++ rcaGo none t := by
  induction p with
  | nil => rfl
  | cons c p' ih =>
    have hc : c ≠ '<' := fun he => hp (he ▸ List.mem_cons_self c p')
    rw [List.cons_append, rcaGo_pass _ hc, ih fun hm => hp (List.mem_cons_of_mem c hm)]
    rfl

theorem rcaGo_accum (buf : Str) {c : Char} (rest : Str) (h1 : c ≠ '>')
    (h2 : isLineTerm c = false) :
    rcaGo (some buf) (c :: rest) = rcaGo (some (c :: buf)) rest := by
  simp [rcaGo, h1, h2]

theorem rcaGo_close {b : Str} (t : Str) (hb : '>' ∉ b)
    (hlt : ∀ c ∈ b, isLineTerm c = false) :
    ∀ buf, rcaGo (some buf) (b ++ '>' :: t) = rcaGo none t := by
  induction b with
  | nil =>
    intro buf
    simp [rcaGo]
  | cons c b' ih =>
    intro buf
    have hc : c ≠ '>' := fun he => hb (he ▸ List.mem_cons_self c b')
    rw [List.cons_append, rcaGo_accum buf _ hc (hlt c (List.mem_cons_self c b')),
      ih (fun hm => hb (List.mem_cons_of_mem c hm))
        (fun d hd => hlt d (List.mem_cons_of_mem c hd))]

/-- `remove_constraint_area` on a well-formed interleaving of plain regions
and annotations erases every annotation, brackets included, leaving exactly
the concatenated plain regions. -/
theorem remove_constraint_area_interleave (p0 : Str) (parts : List (Str × Str))
    (hp0 : '<' ∉ p0)
    (hparts : ∀ e ∈ parts,
      ('<' ∉ e.1 ∧ '>' ∉ e.1 ∧ ∀ c ∈ e.1, isLineTerm c = false) ∧ '<' ∉ e.2) :
    remove_constraint_area (interleave p0 parts)
      = p0 ++ (parts.map Prod.snd).flatten := by
  induction parts generalizing p0 with
  | nil =>
    unfold remove_constraint_area
    rw [interleave, rcaGo_no_open hp0]
    simp
  | cons e rest ih =>
    obtain ⟨⟨hb1, hb2, hb3⟩, hp⟩ := hparts e (List.mem_cons_self e rest)
    unfold remove_constraint_area
    rw [interleave, rcaGo_pass_over ('<' :: (e.1 ++ '>' :: interleave e.2 rest)) hp0]
    have hopen : rcaGo none ('<' :: (e.1 ++ '>' :: interleave e.2 rest))
        = rcaGo (some []) (e.1 ++ '>' :: interleave e.2 rest) := by
      simp [rcaGo]
    rw [hopen, rcaGo_close _ hb2 hb3 []]
    have := ih e.2 hp fun d hd => hparts d (List.mem_cons_of_mem e hd)
    unfold remove_constraint_area at this
    rw [this, List.map_cons, List.flatten_cons]

end LGen

/-- Claim C6.  Rendering a route whose stored template is a well-formed
interleaving of bracket-free plain regions and constraint annotations
(`<body>` with a bracket-free, line-terminator-free body) yields exactly the
concatenated plain regions: every annotation is removed non-greedily by
`create_routes_map`, and the output contains neither `<` nor `>` nor any
annotation occurrence. -/
theorem c6_constraint_erasure (flat : List (Str × Str)) (id p0 : Str)
    (parts : List (Str × Str))
    (h : jsGet flat id = some (interleave p0 parts))
    (hne : parts ≠ []) (hp0nil : p0 ≠ []) (hp0 : '<' ∉ p0) (hp0g : '>' ∉ p0)
    (hparts : ∀ e ∈ parts,
      ('<' ∉ e.1 ∧ '>' ∉ e.1 ∧ ∀ c ∈ e.1, LGen.isLineTerm c = false)
        ∧ '<' ∉ e.2 ∧ '>' ∉ e.2) :
    LGen.link (LGen.create_routes_map flat) none id none []
      = .ok (p0 ++ (parts.map Prod.snd).flatten) ∧
    '<' ∉ p0 ++ (parts.map Prod.snd).flatten ∧
    '>' ∉ p0 ++ (parts.map Prod.snd).flatten := by
  have hmem1 : '<' ∉ p0 ++ (parts.map Prod.snd).flatten := by
    intro hm
    rcases List.mem_append.mp hm with hm | hm
    · exact hp0 hm
    · rw [List.mem_flatten] at hm
      obtain ⟨l, hl, hcl⟩ := hm
      rw [List.mem_map] at hl
      obtain ⟨e, he, rfl⟩ := hl
      exact (hparts e he).2.1 hcl
  have hmem2 : '>' ∉ p0 ++ (parts.map Prod.snd).flatten := by
    intro hm
    rcases List.mem_append.mp hm with hm | hm
    · exact hp0g hm
    · rw [List.mem_flatten] at hm
      obtain ⟨l, hl, hcl⟩ := hm
      rw [List.mem_map] at hl
      obtain ⟨e, he, rfl⟩ := hl
      exact (hparts e he).2.2 hcl
  have hrca : LGen.remove_constraint_area (interleave p0 parts)
      = p0 ++ (parts.map Prod.snd).flatten :=
    LGen.remove_constraint_area_interleave p0 parts hp0
      fun e he => ⟨(hparts e he).1, (hparts e he).2.1⟩
  have hhca : LGen.has_constraint_area (interleave p0 parts) = true := by
    rcases parts with _ | ⟨e, rest⟩
    · exact absurd rfl hne
    · rw [interleave]
      unfold LGen.has_constraint_area
      rw [indexOfChar_append_cons _ hp0]
      simpa using List.length_pos.mpr hp0nil
  have hget : jsGet (LGen.create_routes_map flat) id
      = some (p0 ++ (parts.map Prod.snd).flatten) := by
    have hm : jsGet (LGen.create_routes_map flat) id
        = (jsGet flat id).map fun t =>
            if LGen.has_constraint_area t then LGen.remove_constraint_area t else t := by
      unfold LGen.create_routes_map
      exact jsGet_map_value
        (fun t => if LGen.has_constraint_area t then LGen.remove_constraint_area t else t)
        flat id
    rw [hm, h, Option.map_some', if_pos hhca, hrca]
  have hplains : p0 ++ (parts.map Prod.snd).flatten ≠ [] := by
    intro he
    exact hp0nil (List.append_eq_nil.mp he).1
  exact ⟨LGen.link_static _ id _ hget hplains, hmem1, hmem2⟩

/-- Witness for C6: the template `/users/:id<number>` stored for `users`. -/
theorem c6_constraint_erasure_witness :
    LGen.link (LGen.create_routes_map [(("users".data), ("/users/:id<number>".data))]) none
      ("users".data) none [] = .ok ("/users/:id".data) ∧
    '<' ∉ ("/users/:id".data) ∧ '>' ∉ ("/users/:id".data) := by
  have h := c6_constraint_erasure [(("users".data), ("/users/:id<number>".data))]
    ("users".data) ("/users/:id".data) [(("number".data), [])]
    (by decide) (by decide) (by decide) (by decide) (by decide) (by decide)
  refine ⟨h.1.trans (by decide), by decide, by decide⟩

/-- For the template `/products/:id?` under `createLinkGenerator`
(`generator.ts`), the whole pipeline reduces to the prefix `/products`
followed by `replaceParams`'s replacement for the optional segment. -/
theorem createLinkGenerator_products_template (flat : List (Str × Str)) (id : Str)
    (params : Option ParamObj)
    (h : jsGet flat id = some ("/products/:id?".data)) :
    Gen.createLinkGenerator flat id params none
      = some (("/products".data) ++ Gen.replOpt params ("id".data)) := by
  have hstep : Gen.createLinkGenerator flat id params none
      = some (("/products".data) ++ (Gen.replOpt params ("id".data) ++ [])) := by
    unfold Gen.createLinkGenerator
    rw [h]
    rfl
  simpa using hstep

/-- Claim C3.  Rendering the template `/products/:id?` through
`createLinkGenerator` with the `id` value absent — no parameter object, or an
object whose `id` is `undefined` or `null` — yields exactly `/products` (the
whole segment, separator and marker, collapses); with `id = "42"` it yields
`/products/42`. -/
theorem c3_optional_param_collapse (flat : List (Str × Str)) (id : Str)
    (h : jsGet flat id = some ("/products/:id?".data)) :
    (Gen.createLinkGenerator flat id none none = some ("/products".data)) ∧
    (∀ ps : ParamObj, (jsIndex ps ("id".data) = .undef ∨ jsIndex ps ("id".data) = .null) →
      Gen.createLinkGenerator flat id (some ps) none = some ("/products".data)) ∧
    (∀ ps : ParamObj, jsIndex ps ("id".data) = .str ("42".data) →
      Gen.createLinkGenerator flat id (some ps) none = some ("/products/42".data)) := by
  refine ⟨?_, ?_, ?_⟩
  · rw [createLinkGenerator_products_template flat id none h]
    simp [Gen.replOpt]
  · intro ps hv
    rw [createLinkGenerator_products_template flat id (some ps) h]
    rcases hv with hv | hv <;> simp [Gen.replOpt, hv, jsTruthy]
  · intro ps hv
    rw [createLinkGenerator_products_template flat id (some ps) h]
    simp only [Gen.replOpt, hv, jsTruthy]
    decide

/-- Witness for C3: a flat config holding `products ↦ /products/:id?`. -/
theorem c3_optional_param_collapse_witness :
    (Gen.createLinkGenerator [(("products".data), ("/products/:id?".data))]
        ("products".data) none none = some ("/products".data)) ∧
    (Gen.createLinkGenerator [(("products".data), ("/products/:id?".data))]
        ("products".data) (some [(("id".data), .undef)]) none = some ("/products".data)) ∧
    (Gen.createLinkGenerator [(("products".data), ("/products/:id?".data))]
        ("products".data) (some [(("id".data), .str ("42".data))]) none
      = some ("/products/42".data)) := by
  obtain ⟨h1, h2, h3⟩ := c3_optional_param_collapse
    [(("products".data), ("/products/:id?".data))] ("products".data) (by decide)
  exact ⟨h1, h2 [(("id".data), .undef)] (Or.inl (by decide)),
    h3 [(("id".data), .str ("42".data))] (by decide)⟩

/-! ## The protocol-separator fix of `flattenConfig.ts` -/

namespace FCfg

theorem jsAlpha_ne {ch : Char} (h : jsAlpha ch = true) : ch ≠ ':' ∧ ch ≠ '/' := by
  constructor
  · intro he
    subst he
    exact absurd h (by decide)
  · intro he
    subst he
    exact absurd h (by decide)

/-- A string without the `[a-zA-Z]:///` pattern is left unchanged. -/
theorem reAfter_no_window {s : Str} (h : hasProtoWindow s = false) :
    removeExtraSeparatorFromAfterProtocol s = s := by
  induction s with
  | nil => rfl
  | cons a rest' ih =>
    cases rest' with
    | nil => rfl
    | cons b rest =>
      rw [hasProtoWindow] at h
      simp only [Bool.decide_or, Bool.or_eq_false_iff, decide_eq_false_iff_not] at h
      obtain ⟨hw, htail⟩ := h
      rw [removeExtraSeparatorFromAfterProtocol, if_neg hw,
        ih (by simpa using htail)]

/-- A window inside `s` is still a window inside `s ++ t`. -/
theorem hasProtoWindow_mono {s : Str} (t : Str)
    (h : hasProtoWindow (s ++ t) = false) : hasProtoWindow s = false := by
  induction s with
  | nil => rfl
  | cons a rest' ih =>
    cases rest' with
    | nil => rfl
    | cons b rest =>
      rw [List.cons_append, List.cons_append, hasProtoWindow] at h
      simp only [Bool.decide_or, Bool.or_eq_false_iff, decide_eq_false_iff_not] at h
      obtain ⟨hw, htail⟩ := h
      rw [hasProtoWindow]
      simp only [Bool.decide_or, Bool.or_eq_false_iff, decide_eq_false_iff_not]
      refine ⟨?_, by simpa using ih (by simpa using htail)⟩
      intro ⟨ha, hb, htake⟩
      have hlen : 3 ≤ rest.length := by
        have := congrArg List.length htake
        simp at this
        omega
      exact hw ⟨ha, hb, by rw [List.take_append_of_le_length hlen]; exact htake⟩

/-- On `proto:///…` with an all-letter non-empty `proto`, the regex finds its
first match at the protocol junction and deletes exactly the slash after the
colon. -/
theorem reAfter_protocol (proto : Str) (tail : Str) (hp0 : proto ≠ [])
    (hpA : ∀ ch ∈ proto, jsAlpha ch = true) :
    removeExtraSeparatorFromAfterProtocol (proto ++ ':' :: '/' :: '/' :: '/' :: tail)
      = proto ++ ':' :: '/' :: '/' :: tail := by
  induction proto with
  | nil => exact absurd rfl hp0
  | cons a proto' ih =>
    cases proto' with
    | nil =>
      have ha := hpA a (List.mem_cons_self a [])
      rw [List.cons_append, List.nil_append,
        removeExtraSeparatorFromAfterProtocol, if_pos ⟨ha, rfl, rfl⟩]
      rfl
    | cons p2 prest =>
      have hp2 := hpA p2 (List.mem_cons_of_mem a (List.mem_cons_self p2 prest))
      rw [List.cons_append, List.cons_append, removeExtraSeparatorFromAfterProtocol,
        if_neg (by intro ⟨ha, hb, hc⟩; exact (jsAlpha_ne hp2).1 hb)]
      rw [← List.cons_append]
      rw [ih (by simp) fun ch hch => hpA ch (List.mem_cons_of_mem a hch)]
      rfl

end FCfg

/-- Claim C7.  For a tree whose top-level id carries the `*` marker and whose
root path is a protocol prefix `proto://` (letters then `://`), the flattened
path of the root's first-level child joins `proto://` and the child path with
NO separator (the inserted slash is deleted again by the protocol fix), while
the join one level deeper inserts exactly one ordinary separator.  The
`hasProtoWindow … = false` hypothesis says the deeper joined string contains
no further `letter:///` occurrence the (non-global) regex could act on. -/
theorem c7_protocol_root_join (rid cid gid proto c g : Str)
    (hp0 : proto ≠ []) (hpA : ∀ ch ∈ proto, FCfg.jsAlpha ch = true)
    (hc : c.head? ≠ some '/') (hg : g.head? ≠ some '/')
    (hcid : cid.head? ≠ some '*') (hgid : gid.head? ≠ some '*')
    (hwin : FCfg.hasProtoWindow (proto ++ ':' :: '/' :: '/' :: (c ++ '/' :: g)) = false) :
    (jsGet (FCfg.flattenRouteConfig
        (.cons ('*' :: rid) (proto ++ ':' :: '/' :: '/' :: [])
          (.cons cid c (.cons gid g .nil .nil) .nil) .nil) [])
      ('*' :: rid) = some (proto ++ ':' :: '/' :: '/' :: [])) ∧
    (jsGet (FCfg.flattenRouteConfig
        (.cons ('*' :: rid) (proto ++ ':' :: '/' :: '/' :: [])
          (.cons cid c (.cons gid g .nil .nil) .nil) .nil) [])
      (('*' :: rid) ++ '/' :: cid) = some (proto ++ ':' :: '/' :: '/' :: c)) ∧
    (jsGet (FCfg.flattenRouteConfig
        (.cons ('*' :: rid) (proto ++ ':' :: '/' :: '/' :: [])
          (.cons cid c (.cons gid g .nil .nil) .nil) .nil) [])
      (('*' :: rid) ++ '/' :: (cid ++ '/' :: gid))
      = some (proto ++ ':' :: '/' :: '/' :: (c ++ '/' :: g))) := by
  obtain ⟨p1, prest, rfl⟩ : ∃ a l, proto = a :: l := by
    cases proto with
    | nil => exact absurd rfl hp0
    | cons a l => exact ⟨a, l, rfl⟩
  have hp1 : FCfg.jsAlpha p1 = true := hpA p1 (List.mem_cons_self p1 prest)
  have hp1s : p1 ≠ '/' := (FCfg.jsAlpha_ne hp1).2
  have hwinP1 : FCfg.hasProtoWindow ((p1 :: prest) ++ ':' :: '/' :: '/' :: c) = false := by
    refine FCfg.hasProtoWindow_mono ('/' :: g) ?_
    have he : ((p1 :: prest) ++ ':' :: '/' :: '/' :: c) ++ '/' :: g
        = (p1 :: prest) ++ ':' :: '/' :: '/' :: (c ++ '/' :: g) := by
      simp
    rw [he]
    exact hwin
  have hA2 : FCfg.removeExtraSeparatorFromAfterProtocol
      (p1 :: (prest ++ ':' :: '/' :: '/' :: '/' :: c))
      = p1 :: (prest ++ ':' :: '/' :: '/' :: c) := by
    simpa using FCfg.reAfter_protocol (p1 :: prest) c (by simp) hpA
  have hB2 : FCfg.removeExtraSeparatorFromAfterProtocol
      (p1 :: (prest ++ ':' :: '/' :: '/' :: c))
      = p1 :: (prest ++ ':' :: '/' :: '/' :: c) := by
    simpa using FCfg.reAfter_no_window hwinP1
  have hC2 : FCfg.removeExtraSeparatorFromAfterProtocol
      (p1 :: (prest ++ ':' :: '/' :: '/' :: (c ++ '/' :: g)))
      = p1 :: (prest ++ ':' :: '/' :: '/' :: (c ++ '/' :: g)) := by
    simpa using FCfg.reAfter_no_window hwin
  have hm : FCfg.flattenRouteConfig
      (.cons ('*' :: rid) ((p1 :: prest) ++ ':' :: '/' :: '/' :: [])
        (.cons cid c (.cons gid g .nil .nil) .nil) .nil) []
      = [(('*' :: rid), ((p1 :: prest) ++ ':' :: '/' :: '/' :: [])),
         (('*' :: rid) ++ '/' :: cid, ((p1 :: prest) ++ ':' :: '/' :: '/' :: c)),
         (('*' :: rid) ++ '/' :: (cid ++ '/' :: gid),
           ((p1 :: prest) ++ ':' :: '/' :: '/' :: (c ++ '/' :: g)))] := by
    simp only [FCfg.flattenRouteConfig, FCfg.removeExtraSeparatorsFromProtocolField,
      FCfg.isAbsoluteRoute, FCfg.removeExtraSeparatorFromBeforeProtocol]
    simp [hp1s, hc, hg, hcid, hgid, hA2, hB2, hC2]
  have hne01 : ¬ (('*' :: rid) = ('*' :: rid) ++ '/' :: cid) := ne_append_cons _ _ _
  have hne02 : ¬ (('*' :: rid) = ('*' :: rid) ++ '/' :: (cid ++ '/' :: gid)) :=
    ne_append_cons _ _ _
  have hne12 : ¬ ((('*' :: rid) ++ '/' :: cid)
      = ('*' :: rid) ++ '/' :: (cid ++ '/' :: gid)) := by
    intro he
    simp at he
  refine ⟨?_, ?_, ?_⟩ <;> rw [hm] <;> simp [jsGet, hne01, hne02, hne12]

/-- Witness for C7: `{*external: {path: "https://", children: {youtube:
{path: "youtube.com/:videoid", children: {watch: {path: "watch"}}}}}}`. -/
theorem c7_protocol_root_join_witness :
    (jsGet (FCfg.flattenRouteConfig
        (.cons ("*external".data) ("https://".data)
          (.cons ("youtube".data) ("youtube.com/:videoid".data)
            (.cons ("watch".data) ("watch".data) .nil .nil) .nil) .nil) [])
      ("*external/youtube".data) = some ("https://youtube.com/:videoid".data)) ∧
    (jsGet (FCfg.flattenRouteConfig
        (.cons ("*external".data) ("https://".data)
          (.cons ("youtube".data) ("youtube.com/:videoid".data)
            (.cons ("watch".data) ("watch".data) .nil .nil) .nil) .nil) [])
      ("*external/youtube/watch".data)
      = some ("https://youtube.com/:videoid/watch".data)) := by
  obtain ⟨-, h2, h3⟩ := c7_protocol_root_join ("external".data) ("youtube".data)
    ("watch".data) ("https".data) ("youtube.com/:videoid".data) ("watch".data)
    (by decide) (by decide) (by decide) (by decide) (by decide) (by decide) (by decide)
  have hf : RouteForest.cons ('*' :: ("external".data)) (("https".data) ++ ':' :: '/' :: '/' :: [])
      (.cons ("youtube".data) ("youtube.com/:videoid".data)
        (.cons ("watch".data) ("watch".data) .nil .nil) .nil) .nil
      = RouteForest.cons ("*external".data) ("https://".data)
        (.cons ("youtube".data) ("youtube.com/:videoid".data)
          (.cons ("watch".data) ("watch".data) .nil .nil) .nil) .nil := by decide
  have hk2 : ('*' :: ("external".data)) ++ '/' :: ("youtube".data)
      = ("*external/youtube".data) := by decide
  have hk3 : ('*' :: ("external".data)) ++ '/' :: (("youtube".data) ++ '/' :: ("watch".data))
      = ("*external/youtube/watch".data) := by decide
  rw [hf, hk2] at h2
  rw [hf, hk3] at h3
  exact ⟨h2.trans (by decide), h3.trans (by decide)⟩
